import Mathlib

/-!
Shallow embedding of the lock-free linear-probing hashtable from
`hashtable.h` (repository `larytet/lockfree_hashtable`), specialised to a
sequential (single-thread) execution model.

Machine integers are modelled as `Nat` with explicit reduction modulo `2^32`
where the C code computes on `uint32_t` and overflow can occur.  The value
type `data_type` of the `DECLARE_HASHTABLE` macro is modelled as `Nat`.
The macro parameters `max_tries`, `illegal_key` and `illegal_data` become
fields of the table record, fixed at construction.  The slot array
(`__table`) is a `List Slot`; the compare-and-swap on a slot's key, which is
the only synchronisation point of the C code, becomes an ordinary
read-test-write in the sequential model.  Allocation is assumed to succeed
(`hashtable_init` models the success branch of the C `init`).
-/

namespace Lockfree

/-- One cell of the hash table: `hashtable_##tokn##_slot_t` with its
volatile `uint32_t key` and `data_type data` fields. -/
structure Slot where
  key : Nat
  data : Nat
deriving DecidableEq

/-- The statistics record `hashtable_stat_t` (nine `uint64_t` counters). -/
structure HashtableStat where
  insert : Nat
  remove : Nat
  search : Nat
  collision : Nat
  overwritten : Nat
  insert_err : Nat
  remove_err : Nat
  search_ok : Nat
  search_err : Nat
deriving DecidableEq

/-- The all-zero statistics record a fresh `hashtable_t` starts with. -/
def zeroStat : HashtableStat :=
  ⟨0, 0, 0, 0, 0, 0, 0, 0, 0⟩

/-- The table object: the fields of `hashtable_t` that matter to the core
(`bits`, `hashfunction`, `__size`, `__table`, `__stat`) together with the
`DECLARE_HASHTABLE` macro parameters `max_tries`, `illegal_key`,
`illegal_data`, which the C code fixes per instantiation. -/
structure Hashtable where
  bits : Nat
  hashfunction : Nat → Nat
  size : Nat
  table : List Slot
  stat : HashtableStat
  max_tries : Nat
  illegal_key : Nat
  illegal_data : Nat

/-- Reduction modulo `2^32`: the effect of storing a value into a
`uint32_t`. -/
def u32 (n : Nat) : Nat := n % 2 ^ 32

/-- The default hash `hash32shift` of `hashtable.h`.  Each C assignment
stores into a `uint32_t`, hence the `u32` after every step that can
overflow; `~key` on `uint32_t` is XOR with the all-ones 32-bit mask. -/
def hash32shift (key : Nat) : Nat :=
  let k0 := u32 key
  let k1 := u32 ((k0 ^^^ (2 ^ 32 - 1)) + u32 (k0 <<< 10))
  let k2 := k1 ^^^ (k1 >>> 7)
  let k3 := u32 (k2 + u32 (k2 <<< 1))
  let k4 := k3 ^^^ (k3 >>> 2)
  let k5 := u32 (k4 * 187)
  let k6 := k5 ^^^ (k5 >>> 11)
  k6

/-- The identity hash `hash_none` of `hashtable.h` (used by the test driver
to force deterministic collisions). -/
def hash_none (key : Nat) : Nat := key

/-- Read of slot `i` of the array (out-of-range reads, which never occur
under the in-bounds hypotheses below, default to a zero slot). -/
def slotRead (slots : List Slot) (i : Nat) : Slot :=
  slots.getD i ⟨0, 0⟩

/-- `hashtable_get_index`: `hash & (hashtable->__size - 1)`. -/
def hashtable_get_index (hashtable : Hashtable) (hash : Nat) : Nat :=
  hash &&& (hashtable.size - 1)

/-- `hashtable_##tokn##_init_slot`: a slot freshly initialised to
`illegal_key` / `illegal_data`. -/
def hashtable_init_slot (illegal_key illegal_data : Nat) : Slot :=
  ⟨illegal_key, illegal_data⟩

/-- `hashtable_##tokn##_memory_size`, in units of slots (the C function
multiplies this count by `sizeof(slot)`): `(1 << bits) + max_tries`. -/
def hashtable_memory_size (max_tries bits : Nat) : Nat :=
  2 ^ bits + max_tries

/-- The success branch of `hashtable_##tokn##_init`: the hash function
defaults to `hash32shift` when none is supplied, `__size = 1 << bits`, and
every one of the `__size + max_tries` slots is initialised by
`hashtable_init_slot`.  (The C function can also fail when `malloc`
fails; claims about construction are read relative to the success
branch.) -/
def hashtable_init (bits : Nat) (hf : Option (Nat → Nat))
    (max_tries illegal_key illegal_data : Nat) : Hashtable :=
  { bits := bits
    hashfunction := hf.getD hash32shift
    size := 2 ^ bits
    table := List.replicate (2 ^ bits + max_tries)
      (hashtable_init_slot illegal_key illegal_data)
    stat := zeroStat
    max_tries := max_tries
    illegal_key := illegal_key
    illegal_data := illegal_data }

/-- Outcome of the probe loop of `insert`: the CAS claimed a free slot, the
slot already held the same key (overwrite), or the probe bound was hit. -/
inductive InsertOutcome where
  | claimed
  | overwritten
  | failed
deriving DecidableEq

/-- The probe loop of `hashtable_##tokn##_insert`, walking from index `i`
with `t` tries left.  At each slot the CAS on the key is modelled by the
read-test-write: a slot whose key reads `illegal_key` is claimed
(`slot->key := k` by the CAS, then `slot->data := d`); a slot whose key
reads `k` gets its data overwritten; any other slot counts a collision and
the walk continues.  The third component counts the collisions recorded. -/
def insertProbe (ik k d : Nat) (slots : List Slot) :
    Nat → Nat → List Slot × InsertOutcome × Nat
  | _, 0 => (slots, InsertOutcome.failed, 0)
  | i, t + 1 =>
    let old_key := (slotRead slots i).key
    if old_key = ik then
      (slots.set i ⟨k, d⟩, InsertOutcome.claimed, 0)
    else if old_key = k then
      (slots.set i ⟨k, d⟩, InsertOutcome.overwritten, 0)
    else
      let r := insertProbe ik k d slots (i + 1) t
      (r.1, r.2.1, r.2.2 + 1)

/-- `hashtable_##tokn##_insert`.  Faithful to the C control flow: the
`insert` counter is incremented before the probe loop, `collision` once per
mismatching occupied slot, `overwritten` on a same-key hit, `insert_err`
when the probe bound is exhausted.  Returns the updated table and the C
return code (`1` = success) as a `Bool`. -/
def hashtable_insert (ht : Hashtable) (key data : Nat) : Hashtable × Bool :=
  let hash := ht.hashfunction key
  let index := hashtable_get_index ht hash
  let st0 := { ht.stat with insert := ht.stat.insert + 1 }
  let r := insertProbe ht.illegal_key key data ht.table index ht.max_tries
  let st1 := { st0 with collision := st0.collision + r.2.2 }
  match r.2.1 with
  | InsertOutcome.claimed => ({ ht with table := r.1, stat := st1 }, true)
  | InsertOutcome.overwritten =>
      ({ ht with table := r.1,
                 stat := { st1 with overwritten := st1.overwritten + 1 } }, true)
  | InsertOutcome.failed =>
      ({ ht with table := r.1,
                 stat := { st1 with insert_err := st1.insert_err + 1 } }, false)

/-- The probe loop of `hashtable_##tokn##_remove`: find the first slot in
the window whose key reads `k`, return its data and clear the slot (C order:
read `slot->data`, store `illegal_data`, barrier, store `illegal_key`). -/
def removeProbe (ik idata k : Nat) (slots : List Slot) :
    Nat → Nat → Option (List Slot × Nat)
  | _, 0 => none
  | i, t + 1 =>
    let s := slotRead slots i
    if s.key = k then
      some (slots.set i ⟨ik, idata⟩, s.data)
    else
      removeProbe ik idata k slots (i + 1) t

/-- `hashtable_##tokn##_remove`.  The `remove` counter is incremented before
the loop; on success the removed value is returned (the C out-pointer
becomes an `Option`); on failure `remove_err` is incremented and the table
is untouched. -/
def hashtable_remove (ht : Hashtable) (key : Nat) : Hashtable × Option Nat :=
  let hash := ht.hashfunction key
  let index := hashtable_get_index ht hash
  let st0 := { ht.stat with remove := ht.stat.remove + 1 }
  match removeProbe ht.illegal_key ht.illegal_data key ht.table index ht.max_tries with
  | some (slots, d) => ({ ht with table := slots, stat := st0 }, some d)
  | none =>
      ({ ht with stat := { st0 with remove_err := st0.remove_err + 1 } }, none)

/-- The probe loop of `hashtable_##tokn##_find`: return the data of the
first slot in the window whose key reads `k`. -/
def findProbe (k : Nat) (slots : List Slot) : Nat → Nat → Option Nat
  | _, 0 => none
  | i, t + 1 =>
    let s := slotRead slots i
    if s.key = k then some s.data
    else findProbe k slots (i + 1) t

/-- `hashtable_##tokn##_find`.  The `search` counter is incremented before
the loop, then `search_ok` or `search_err` according to the outcome.  The
slot array is never modified. -/
def hashtable_find (ht : Hashtable) (key : Nat) : Hashtable × Option Nat :=
  let hash := ht.hashfunction key
  let index := hashtable_get_index ht hash
  let st0 := { ht.stat with search := ht.stat.search + 1 }
  match findProbe key ht.table index ht.max_tries with
  | some d =>
      ({ ht with stat := { st0 with search_ok := st0.search_ok + 1 } }, some d)
  | none =>
      ({ ht with stat := { st0 with search_err := st0.search_err + 1 } }, none)

/-- A single sequential operation on the table. -/
inductive HOp where
  | ins : Nat → Nat → HOp
  | del : Nat → HOp
  | query : Nat → HOp
deriving DecidableEq

/-- Running one operation (discarding the return value). -/
def runOp (ht : Hashtable) : HOp → Hashtable
  | HOp.ins k v => (hashtable_insert ht k v).1
  | HOp.del k => (hashtable_remove ht k).1
  | HOp.query k => (hashtable_find ht k).1

/-- Running a sequence of operations left to right. -/
def runOps (ht : Hashtable) (ops : List HOp) : Hashtable :=
  ops.foldl runOp ht

/-- Number of slots of `slots` whose key field holds `k`. -/
def countKey (slots : List Slot) (k : Nat) : Nat :=
  slots.countP (fun s => s.key == k)

/-- Number of slots holding key `k` inside `k`'s probe window
`[H(k) & (size-1), H(k) & (size-1) + max_tries)` of table `ht`. -/
def windowCount (ht : Hashtable) (k : Nat) : Nat :=
  countKey (((ht.table.drop (hashtable_get_index ht (ht.hashfunction k)))).take ht.max_tries) k

/-- Number of insert operations with key `k` in a sequence. -/
def insCount (k : Nat) (ops : List HOp) : Nat :=
  ops.countP (fun op => match op with
    | HOp.ins k' _ => k' == k
    | _ => false)

/-! ### List helpers -/

theorem getD_set_self {α : Type _} (l : List α) (i : Nat) (a d : α)
    (h : i < l.length) : (l.set i a).getD i d = a := by
  simp [List.getD_eq_getElem?_getD, List.getElem?_set, h]

theorem getD_set_ne {α : Type _} (l : List α) {i j : Nat} (a d : α)
    (h : i ≠ j) : (l.set i a).getD j d = l.getD j d := by
  simp [List.getD_eq_getElem?_getD, List.getElem?_set, h]

theorem countP_set_le_succ {α : Type _} (p : α → Bool) (l : List α) (i : Nat)
    (a : α) : (l.set i a).countP p ≤ l.countP p + 1 := by
  by_cases h : i < l.length
  · rw [List.countP_set p l i a h]
    split <;> split <;> omega
  · rw [List.set_eq_of_length_le (Nat.le_of_not_lt h)]
    omega

theorem countP_set_le_of_neg {α : Type _} (p : α → Bool) (l : List α) (i : Nat)
    (a : α) (ha : p a = false) : (l.set i a).countP p ≤ l.countP p := by
  by_cases h : i < l.length
  · rw [List.countP_set p l i a h, ha]
    simp only [Bool.false_eq_true, if_false]
    split <;> omega
  · rw [List.set_eq_of_length_le (Nat.le_of_not_lt h)]

theorem slotRead_set_self (l : List Slot) (i : Nat) (a : Slot)
    (h : i < l.length) : slotRead (l.set i a) i = a := by
  unfold slotRead
  exact getD_set_self l i a ⟨0, 0⟩ h

theorem slotRead_set_ne (l : List Slot) {i j : Nat} (a : Slot)
    (h : i ≠ j) : slotRead (l.set i a) j = slotRead l j := by
  unfold slotRead
  exact getD_set_ne l a ⟨0, 0⟩ h

theorem countKey_zero_slotRead {l : List Slot} {k : Nat} (h : countKey l k = 0)
    {i : Nat} (hi : i < l.length) : (slotRead l i).key ≠ k := by
  have hmem : slotRead l i ∈ l := by
    unfold slotRead
    rw [List.getD_eq_getElem?_getD, List.getElem?_eq_getElem hi]
    exact List.getElem_mem hi
  have := List.countP_eq_zero.mp h _ hmem
  simpa using this

theorem countKey_infix_le (l : List Slot) (s t k : Nat) :
    countKey ((l.drop s).take t) k ≤ countKey l k := by
  unfold countKey
  have h1 : List.countP (fun x => x.key == k) ((l.drop s).take t)
      + List.countP (fun x => x.key == k) ((l.drop s).drop t)
      = List.countP (fun x => x.key == k) (l.drop s) := by
    rw [← List.countP_append, List.take_append_drop]
  have h2 : List.countP (fun x => x.key == k) (l.take s)
      + List.countP (fun x => x.key == k) (l.drop s)
      = List.countP (fun x => x.key == k) l := by
    rw [← List.countP_append, List.take_append_drop]
  omega

/-! ### Probe-loop characterisations -/

theorem insertProbe_failed (ik k d : Nat) (slots : List Slot) :
    ∀ (t i), (insertProbe ik k d slots i t).2.1 = InsertOutcome.failed →
      (insertProbe ik k d slots i t).1 = slots ∧
      ∀ j < t, (slotRead slots (i + j)).key ≠ ik ∧
        (slotRead slots (i + j)).key ≠ k := by
  intro t
  induction t with
  | zero => exact fun i _ => ⟨rfl, fun j hj => absurd hj (by omega)⟩
  | succ t ih =>
    intro i hf
    by_cases h1 : (slotRead slots i).key = ik
    · simp [insertProbe, h1] at hf
    · by_cases h2 : (slotRead slots i).key = k
      · have hki : ¬(k = ik) := fun he => h1 (h2.trans he)
        simp [insertProbe, h1, h2, hki] at hf
      · simp only [insertProbe, h1, h2, if_neg, if_false] at hf ⊢
        obtain ⟨htab, hall⟩ := ih (i + 1) hf
        refine ⟨htab, fun j hj => ?_⟩
        match j with
        | 0 => simpa using ⟨h1, h2⟩
        | j + 1 =>
          have := hall j (by omega)
          rw [show i + (j + 1) = (i + 1) + j by omega]
          exact this

theorem insertProbe_success (ik k d : Nat) (slots : List Slot) :
    ∀ (t i), (insertProbe ik k d slots i t).2.1 ≠ InsertOutcome.failed →
      ∃ j, j < t ∧
        (insertProbe ik k d slots i t).1 = slots.set (i + j) ⟨k, d⟩ ∧
        ((slotRead slots (i + j)).key = ik ∨
          (slotRead slots (i + j)).key = k) ∧
        ∀ j' < j, (slotRead slots (i + j')).key ≠ ik ∧
          (slotRead slots (i + j')).key ≠ k := by
  intro t
  induction t with
  | zero => intro i hf; exact absurd rfl hf
  | succ t ih =>
    intro i hf
    by_cases h1 : (slotRead slots i).key = ik
    · refine ⟨0, by omega, ?_, ?_, ?_⟩
      · simp [insertProbe, h1]
      · simpa using Or.inl h1
      · exact fun j' hj' => absurd hj' (by omega)
    · by_cases h2 : (slotRead slots i).key = k
      · have hki : ¬(k = ik) := fun he => h1 (h2.trans he)
        refine ⟨0, by omega, ?_, ?_, ?_⟩
        · simp [insertProbe, h1, h2, hki]
        · simpa using Or.inr h2
        · exact fun j' hj' => absurd hj' (by omega)
      · simp only [insertProbe, h1, h2, if_neg, if_false] at hf ⊢
        obtain ⟨j, hj, htab, hhit, hpre⟩ := ih (i + 1) hf
        refine ⟨j + 1, by omega, ?_, ?_, ?_⟩
        · rw [show i + (j + 1) = (i + 1) + j by omega]
          exact htab
        · rw [show i + (j + 1) = (i + 1) + j by omega]
          exact hhit
        · intro j' hj'
          match j' with
          | 0 => simpa using ⟨h1, h2⟩
          | j' + 1 =>
            have := hpre j' (by omega)
            rw [show i + (j' + 1) = (i + 1) + j' by omega]
            exact this

theorem findProbe_none (k : Nat) (slots : List Slot) :
    ∀ (t i), (∀ j < t, (slotRead slots (i + j)).key ≠ k) →
      findProbe k slots i t = none := by
  intro t
  induction t with
  | zero => intro i _; rfl
  | succ t ih =>
    intro i hall
    have h0 : (slotRead slots i).key ≠ k := by simpa using hall 0 (by omega)
    simp only [findProbe, h0, if_neg, if_false]
    exact ih (i + 1) fun j hj => by
      have := hall (j + 1) (by omega)
      rw [show i + (j + 1) = (i + 1) + j by omega] at this
      exact this

theorem findProbe_hit (k : Nat) (slots : List Slot) :
    ∀ (t i j), j < t → (∀ j' < j, (slotRead slots (i + j')).key ≠ k) →
      (slotRead slots (i + j)).key = k →
      findProbe k slots i t = some ((slotRead slots (i + j)).data) := by
  intro t
  induction t with
  | zero => intro i j hj; omega
  | succ t ih =>
    intro i j hj hpre hhit
    match j with
    | 0 =>
      simp only [Nat.add_zero] at hhit
      simp [findProbe, hhit]
    | j + 1 =>
      have h0 : (slotRead slots i).key ≠ k := by simpa using hpre 0 (by omega)
      simp only [findProbe, h0, if_neg, if_false]
      rw [show i + (j + 1) = (i + 1) + j by omega]
      exact ih (i + 1) j (by omega)
        (fun j' hj' => by
          have := hpre (j' + 1) (by omega)
          rw [show i + (j' + 1) = (i + 1) + j' by omega] at this
          exact this)
        (by rw [show (i + 1) + j = i + (j + 1) by omega]; exact hhit)

theorem removeProbe_hit (ik idata k : Nat) (slots : List Slot) :
    ∀ (t i j), j < t → (∀ j' < j, (slotRead slots (i + j')).key ≠ k) →
      (slotRead slots (i + j)).key = k →
      removeProbe ik idata k slots i t
        = some (slots.set (i + j) ⟨ik, idata⟩,
            (slotRead slots (i + j)).data) := by
  intro t
  induction t with
  | zero => intro i j hj; omega
  | succ t ih =>
    intro i j hj hpre hhit
    match j with
    | 0 =>
      simp only [Nat.add_zero] at hhit ⊢
      simp [removeProbe, hhit]
    | j + 1 =>
      have h0 : (slotRead slots i).key ≠ k := by simpa using hpre 0 (by omega)
      simp only [removeProbe, h0, if_neg, if_false]
      rw [show i + (j + 1) = (i + 1) + j by omega]
      exact ih (i + 1) j (by omega)
        (fun j' hj' => by
          have := hpre (j' + 1) (by omega)
          rw [show i + (j' + 1) = (i + 1) + j' by omega] at this
          exact this)
        (by rw [show (i + 1) + j = i + (j + 1) by omega]; exact hhit)

theorem removeProbe_some (ik idata k : Nat) (slots : List Slot) :
    ∀ (t i slots' d), removeProbe ik idata k slots i t = some (slots', d) →
      ∃ j, j < t ∧ slots' = slots.set (i + j) ⟨ik, idata⟩ := by
  intro t
  induction t with
  | zero => intro i slots' d h; simp [removeProbe] at h
  | succ t ih =>
    intro i slots' d h
    by_cases h0 : (slotRead slots i).key = k
    · simp only [removeProbe, h0, if_pos, Option.some.injEq, Prod.mk.injEq] at h
      exact ⟨0, by omega, by simpa using h.1.symm⟩
    · simp only [removeProbe, h0, if_neg, if_false] at h
      obtain ⟨j, hj, htab⟩ := ih (i + 1) slots' d h
      exact ⟨j + 1, by omega, by rw [show i + (j + 1) = (i + 1) + j by omega]; exact htab⟩

/-! ### Operation-level characterisations -/

theorem hashtable_insert_fields (ht : Hashtable) (k v : Nat) :
    (hashtable_insert ht k v).1.bits = ht.bits ∧
    (hashtable_insert ht k v).1.hashfunction = ht.hashfunction ∧
    (hashtable_insert ht k v).1.size = ht.size ∧
    (hashtable_insert ht k v).1.max_tries = ht.max_tries ∧
    (hashtable_insert ht k v).1.illegal_key = ht.illegal_key ∧
    (hashtable_insert ht k v).1.illegal_data = ht.illegal_data := by
  cases hout : (insertProbe ht.illegal_key k v ht.table
      (hashtable_get_index ht (ht.hashfunction k)) ht.max_tries).2.1 <;>
    simp [hashtable_insert, hout]

theorem hashtable_insert_table (ht : Hashtable) (k v : Nat) :
    (hashtable_insert ht k v).1.table
      = (insertProbe ht.illegal_key k v ht.table
          (hashtable_get_index ht (ht.hashfunction k)) ht.max_tries).1 := by
  cases hout : (insertProbe ht.illegal_key k v ht.table
      (hashtable_get_index ht (ht.hashfunction k)) ht.max_tries).2.1 <;>
    simp [hashtable_insert, hout]

theorem hashtable_insert_true_iff (ht : Hashtable) (k v : Nat) :
    (hashtable_insert ht k v).2 = true ↔
      (insertProbe ht.illegal_key k v ht.table
        (hashtable_get_index ht (ht.hashfunction k)) ht.max_tries).2.1
        ≠ InsertOutcome.failed := by
  cases hout : (insertProbe ht.illegal_key k v ht.table
      (hashtable_get_index ht (ht.hashfunction k)) ht.max_tries).2.1 <;>
    simp [hashtable_insert, hout]

theorem hashtable_remove_of_probe_some (ht : Hashtable) (k : Nat)
    (slots : List Slot) (d : Nat)
    (h : removeProbe ht.illegal_key ht.illegal_data k ht.table
      (hashtable_get_index ht (ht.hashfunction k)) ht.max_tries
      = some (slots, d)) :
    (hashtable_remove ht k).1.table = slots ∧
    (hashtable_remove ht k).2 = some d ∧
    (hashtable_remove ht k).1.hashfunction = ht.hashfunction ∧
    (hashtable_remove ht k).1.size = ht.size ∧
    (hashtable_remove ht k).1.max_tries = ht.max_tries ∧
    (hashtable_remove ht k).1.illegal_key = ht.illegal_key := by
  simp [hashtable_remove, h]

theorem hashtable_remove_of_probe_none (ht : Hashtable) (k : Nat)
    (h : removeProbe ht.illegal_key ht.illegal_data k ht.table
      (hashtable_get_index ht (ht.hashfunction k)) ht.max_tries = none) :
    (hashtable_remove ht k).1.table = ht.table ∧
    (hashtable_remove ht k).2 = none := by
  simp [hashtable_remove, h]

theorem hashtable_remove_table_cases (ht : Hashtable) (k : Nat) :
    (hashtable_remove ht k).1.table = ht.table ∨
    ∃ i, (hashtable_remove ht k).1.table
      = ht.table.set i ⟨ht.illegal_key, ht.illegal_data⟩ := by
  cases hout : removeProbe ht.illegal_key ht.illegal_data k ht.table
      (hashtable_get_index ht (ht.hashfunction k)) ht.max_tries with
  | none => exact Or.inl (hashtable_remove_of_probe_none ht k hout).1
  | some p =>
    obtain ⟨j, _, htab⟩ := removeProbe_some ht.illegal_key ht.illegal_data k
      ht.table ht.max_tries (hashtable_get_index ht (ht.hashfunction k))
      p.1 p.2 (by rw [hout])
    refine Or.inr ⟨hashtable_get_index ht (ht.hashfunction k) + j, ?_⟩
    rw [(hashtable_remove_of_probe_some ht k p.1 p.2 (by rw [hout])).1, htab]

theorem hashtable_find_snd (ht : Hashtable) (k : Nat) :
    (hashtable_find ht k).2
      = findProbe k ht.table (hashtable_get_index ht (ht.hashfunction k))
          ht.max_tries := by
  cases hout : findProbe k ht.table
      (hashtable_get_index ht (ht.hashfunction k)) ht.max_tries <;>
    simp [hashtable_find, hout]

theorem hashtable_find_table (ht : Hashtable) (k : Nat) :
    (hashtable_find ht k).1.table = ht.table := by
  cases hout : findProbe k ht.table
      (hashtable_get_index ht (ht.hashfunction k)) ht.max_tries <;>
    simp [hashtable_find, hout]

theorem runOp_illegal_key (ht : Hashtable) (op : HOp) :
    (runOp ht op).illegal_key = ht.illegal_key := by
  cases op with
  | ins k v => exact (hashtable_insert_fields ht k v).2.2.2.2.1
  | del k =>
    cases hout : removeProbe ht.illegal_key ht.illegal_data k ht.table
        (hashtable_get_index ht (ht.hashfunction k)) ht.max_tries <;>
      simp [runOp, hashtable_remove, hout]
  | query k =>
    cases hout : findProbe k ht.table
        (hashtable_get_index ht (ht.hashfunction k)) ht.max_tries <;>
      simp [runOp, hashtable_find, hout]

/-! ### Occurrence counting across operation sequences -/

theorem insertProbe_table_cases (ik k d : Nat) (slots : List Slot) (t i : Nat) :
    (insertProbe ik k d slots i t).1 = slots ∨
    ∃ j, (insertProbe ik k d slots i t).1 = slots.set (i + j) ⟨k, d⟩ := by
  by_cases hf : (insertProbe ik k d slots i t).2.1 = InsertOutcome.failed
  · exact Or.inl (insertProbe_failed ik k d slots t i hf).1
  · obtain ⟨j, _, htab, _, _⟩ := insertProbe_success ik k d slots t i hf
    exact Or.inr ⟨j, htab⟩

theorem countKey_runOp_le (ht : Hashtable) (op : HOp) (k : Nat)
    (hk : k ≠ ht.illegal_key) :
    countKey (runOp ht op).table k ≤ countKey ht.table k + insCount k [op] := by
  cases op with
  | ins k' v =>
    have htab := hashtable_insert_table ht k' v
    rcases insertProbe_table_cases ht.illegal_key k' v ht.table ht.max_tries
        (hashtable_get_index ht (ht.hashfunction k')) with hc | ⟨j, hc⟩
    · rw [runOp, htab, hc]
      exact Nat.le_add_right _ _
    · rw [runOp, htab, hc]
      by_cases hk' : k' = k
      · subst hk'
        have h1 : insCount k' [HOp.ins k' v] = 1 := by
          simp [insCount, List.countP_cons]
        rw [h1]
        exact countP_set_le_succ _ _ _ _
      · have h1 : ((⟨k', v⟩ : Slot).key == k) = false := by
          simp [hk']
        calc countKey (ht.table.set (hashtable_get_index ht (ht.hashfunction k') + j) ⟨k', v⟩) k
            ≤ countKey ht.table k := countP_set_le_of_neg _ _ _ _ h1
          _ ≤ countKey ht.table k + insCount k [HOp.ins k' v] := Nat.le_add_right _ _
  | del k' =>
    rcases hashtable_remove_table_cases ht k' with hc | ⟨i, hc⟩
    · rw [runOp, hc]
      exact Nat.le_add_right _ _
    · rw [runOp, hc]
      have h1 : ((⟨ht.illegal_key, ht.illegal_data⟩ : Slot).key == k) = false := by
        simp
        exact fun he => hk he.symm
      calc countKey (ht.table.set i ⟨ht.illegal_key, ht.illegal_data⟩) k
          ≤ countKey ht.table k := countP_set_le_of_neg _ _ _ _ h1
        _ ≤ countKey ht.table k + insCount k [HOp.del k'] := Nat.le_add_right _ _
  | query k' =>
    rw [runOp, hashtable_find_table]
    exact Nat.le_add_right _ _

theorem countKey_runOps_le (k : Nat) :
    ∀ (ops : List HOp) (ht : Hashtable), k ≠ ht.illegal_key →
      countKey (runOps ht ops).table k ≤ countKey ht.table k + insCount k ops := by
  intro ops
  induction ops with
  | nil => intro ht _; simp [runOps, insCount]
  | cons op ops ih =>
    intro ht hk
    have h1 := countKey_runOp_le ht op k hk
    have h2 := ih (runOp ht op) (by rw [runOp_illegal_key]; exact hk)
    have h3 : runOps ht (op :: ops) = runOps (runOp ht op) ops := rfl
    have h4 : insCount k (op :: ops) = insCount k [op] + insCount k ops := by
      simp [insCount, List.countP_cons]
      omega
    rw [h3]
    omega

theorem countKey_init (bits mt ik idata k : Nat) (hf : Option (Nat → Nat))
    (hk : k ≠ ik) :
    countKey (hashtable_init bits hf mt ik idata).table k = 0 := by
  have h1 : ((hashtable_init_slot ik idata).key == k) = false := by
    simp [hashtable_init_slot]
    exact fun he => hk he.symm
  simp [countKey, hashtable_init, List.countP_replicate, h1]

theorem windowCount_le_countKey (ht : Hashtable) (k : Nat) :
    windowCount ht k ≤ countKey ht.table k :=
  countKey_infix_le _ _ _ _

/-! ### Concrete tables used by counterexamples and witnesses -/

/-- A fresh table with `bits = 1` (`size = 2`), `MAX_PROBES = 2`, identity
hash, `KEY_EMPTY = VALUE_EMPTY = 0`, after the sequential operation
sequence `insert 2 10; insert 4 20; remove 2; insert 4 30` (keys 2 and 4
both hash to slot 0). -/
def htC1 : Hashtable :=
  runOps (hashtable_init 1 (some hash_none) 2 0 0)
    [HOp.ins 2 10, HOp.ins 4 20, HOp.del 2, HOp.ins 4 30]

/-- A table with a single primary slot (`bits = 0`) and `MAX_PROBES = 1`,
identity hash, holding key 5: any insert of a different key that hashes to
slot 0 saturates the probe chain. -/
def htC2 : Hashtable :=
  runOps (hashtable_init 0 (some hash_none) 1 0 0) [HOp.ins 5 5]

/-- The fresh table of the spec's forced-collision scenario: `bits = 8`,
`MAX_PROBES = 4`, identity hash, `KEY_EMPTY = 0`. -/
def htC3 : Hashtable := hashtable_init 8 (some hash_none) 4 0 0

/-- `htC3` after `insert 256`. -/
def htC3a : Hashtable := (hashtable_insert htC3 256 256).1

/-- `htC3a` after `insert 512`. -/
def htC3b : Hashtable := (hashtable_insert htC3a 512 512).1

/-- `htC3b` after `insert 768`. -/
def htC3c : Hashtable := (hashtable_insert htC3b 768 768).1

/-- `htC3c` after `insert 1024`. -/
def htC3d : Hashtable := (hashtable_insert htC3c 1024 1024).1

/-! ### Claim theorems -/

/-- Claim C1, counterexample.  From a fresh table (`bits = 1`, `size = 2`,
`MAX_PROBES = 2`, identity hash, `KEY_EMPTY = 0`) the sequential sequence
`insert 2; insert 4; remove 2; insert 4` is reachable and leaves key `4`
(whose probe window is `[0, 2)`) in *two* slots of its probe window,
refuting the claimed invariant that at most one slot of the window holds a
given non-empty key at any instant. -/
theorem C1_window_unique_counterexample :
    (4 : Nat) ≠ htC1.illegal_key ∧
    hashtable_get_index htC1 (htC1.hashfunction 4) = 0 ∧
    htC1.max_tries = 2 ∧
    (slotRead htC1.table 0).key = 4 ∧
    (slotRead htC1.table 1).key = 4 ∧
    windowCount htC1 4 = 2 := by
  decide

/-- Claim C1 (amended): at most one slot of `k`'s probe window holds key
`k` in every state reachable from a fresh table by a sequence of
insert/lookup/remove operations that contains **at most one insert of `k`**
(the counterexample shows a second insert of the same key, racing past a
slot freed in between, can duplicate the key; the bound `insCount ≤ 1` is
exactly what the counterexample forces). -/
theorem C1_window_unique_amended (bits mt ik idata k : Nat)
    (hf : Option (Nat → Nat)) (ops : List HOp)
    (hk : k ≠ ik) (hops : insCount k ops ≤ 1) :
    windowCount (runOps (hashtable_init bits hf mt ik idata) ops) k ≤ 1 := by
  have h0 := countKey_init bits mt ik idata k hf hk
  have h1 := countKey_runOps_le k ops (hashtable_init bits hf mt ik idata)
    (by simpa [hashtable_init] using hk)
  have h2 := windowCount_le_countKey
    (runOps (hashtable_init bits hf mt ik idata) ops) k
  omega

/-- Claim C1 (amended), witness at a concrete instance. -/
theorem C1_window_unique_witness :
    (4 : Nat) ≠ 0 ∧
    insCount 4 [HOp.ins 2 10, HOp.ins 4 20, HOp.del 2] ≤ 1 ∧
    windowCount (runOps (hashtable_init 1 (some hash_none) 2 0 0)
      [HOp.ins 2 10, HOp.ins 4 20, HOp.del 2]) 4 ≤ 1 :=
  ⟨by decide, by decide,
    C1_window_unique_amended 1 2 0 0 4 (some hash_none)
      [HOp.ins 2 10, HOp.ins 4 20, HOp.del 2] (by decide) (by decide)⟩

/-- Claim C2, counterexample.  On a saturated probe chain the insert fails,
yet the `insert` counter still goes up (from 1 to 2 here) and `collision`
is also incremented, refuting "increments only `insert_err`, leaving the
`insert` counter unchanged": the C code increments `insert` before the
probe loop on every call. -/
theorem C2_insert_counter_counterexample :
    (hashtable_insert htC2 7 7).2 = false ∧
    htC2.stat.insert = 1 ∧
    (hashtable_insert htC2 7 7).1.stat.insert = 2 ∧
    (hashtable_insert htC2 7 7).1.stat.insert_err = 1 ∧
    (hashtable_insert htC2 7 7).1.stat.collision = 1 := by
  decide

/-- Claim C2 (amended): `insert` increments the `insert` statistics counter
exactly once on **every** call, successful or not; exactly when it returns
failure (all `MAX_PROBES` slots exhausted) it additionally increments
`insert_err`. -/
theorem C2_insert_counter_amended (ht : Hashtable) (k v : Nat) :
    (hashtable_insert ht k v).1.stat.insert = ht.stat.insert + 1 ∧
    (hashtable_insert ht k v).1.stat.insert_err
      = ht.stat.insert_err
        + (if (hashtable_insert ht k v).2 = true then 0 else 1) := by
  cases hout : (insertProbe ht.illegal_key k v ht.table
      (hashtable_get_index ht (ht.hashfunction k)) ht.max_tries).2.1 <;>
    simp [hashtable_insert, hout]

/-- Claim C3: with `bits = 8`, `MAX_PROBES = 4`, the identity hash and
`KEY_EMPTY = 0`, inserting `256, 512, 768, 1024` into the fresh table
succeeds each time, occupying slots 0, 1, 2, 3; a fifth insert of `1280`
(which also hashes to slot 0) fails and increments `insert_err`. -/
theorem C3_forced_collision_scenario :
    hashtable_get_index htC3 (htC3.hashfunction 256) = 0 ∧
    hashtable_get_index htC3 (htC3.hashfunction 1280) = 0 ∧
    (hashtable_insert htC3 256 256).2 = true ∧
    (hashtable_insert htC3a 512 512).2 = true ∧
    (hashtable_insert htC3b 768 768).2 = true ∧
    (hashtable_insert htC3c 1024 1024).2 = true ∧
    (slotRead htC3d.table 0).key = 256 ∧
    (slotRead htC3d.table 1).key = 512 ∧
    (slotRead htC3d.table 2).key = 768 ∧
    (slotRead htC3d.table 3).key = 1024 ∧
    (hashtable_insert htC3d 1280 1280).2 = false ∧
    htC3d.stat.insert_err = 0 ∧
    (hashtable_insert htC3d 1280 1280).1.stat.insert_err = 1 := by
  decide

/-- Claim C7: a failed insert (probe chain saturated) and a failed remove
(key not found within `MAX_PROBES`) leave every slot of the table exactly
as it was. -/
theorem C7_failed_ops_leave_table (ht : Hashtable) (k k' v : Nat) :
    ((hashtable_insert ht k v).2 = false →
      (hashtable_insert ht k v).1.table = ht.table) ∧
    ((hashtable_remove ht k').2 = none →
      (hashtable_remove ht k').1.table = ht.table) := by
  constructor
  · intro hfail
    have hout : (insertProbe ht.illegal_key k v ht.table
        (hashtable_get_index ht (ht.hashfunction k)) ht.max_tries).2.1
        = InsertOutcome.failed := by
      by_contra hne
      have := (hashtable_insert_true_iff ht k v).mpr hne
      rw [hfail] at this
      exact Bool.false_ne_true this
    rw [hashtable_insert_table,
      (insertProbe_failed ht.illegal_key k v ht.table ht.max_tries
        (hashtable_get_index ht (ht.hashfunction k)) hout).1]
  · intro hfail
    cases hout : removeProbe ht.illegal_key ht.illegal_data k' ht.table
        (hashtable_get_index ht (ht.hashfunction k')) ht.max_tries with
    | none => exact (hashtable_remove_of_probe_none ht k' hout).1
    | some p =>
      have := (hashtable_remove_of_probe_some ht k' p.1 p.2
        (by rw [hout])).2.1
      rw [hfail] at this
      exact absurd this (by simp)

/-- Claim C7, witness: a concrete saturated insert and a concrete missing
key, both failing and both leaving the table unchanged. -/
theorem C7_failed_ops_leave_table_witness :
    (hashtable_insert htC2 7 7).1.table = htC2.table ∧
    (hashtable_remove htC2 9).1.table = htC2.table :=
  ⟨(C7_failed_ops_leave_table htC2 7 9 7).1 (by decide),
   (C7_failed_ops_leave_table htC2 7 9 7).2 (by decide)⟩

/-- Claim C8: for a table built with exponent `bits`, every slot index a
probe chain can touch — `H(k) & (size-1) + j` for `j < MAX_PROBES` — lies
strictly inside the allocated array of `size + MAX_PROBES` slots, with no
wrap-around. -/
theorem C8_probe_indices_in_bounds (bits mt ik idata key j : Nat)
    (hf : Option (Nat → Nat)) (hj : j < mt) :
    hashtable_get_index (hashtable_init bits hf mt ik idata)
        ((hashtable_init bits hf mt ik idata).hashfunction key) + j
      < (hashtable_init bits hf mt ik idata).table.length := by
  have hsize : (hashtable_init bits hf mt ik idata).size = 2 ^ bits := rfl
  have h1 : hashtable_get_index (hashtable_init bits hf mt ik idata)
      ((hashtable_init bits hf mt ik idata).hashfunction key)
      ≤ 2 ^ bits - 1 := by
    rw [hashtable_get_index, hsize]
    exact Nat.and_le_right
  have h2 : (hashtable_init bits hf mt ik idata).table.length
      = 2 ^ bits + mt := by
    simp [hashtable_init]
  have h3 : 0 < 2 ^ bits := Nat.pos_pow_of_pos bits (by omega)
  omega

/-- Claim C8, witness. -/
theorem C8_probe_indices_in_bounds_witness :
    (3 : Nat) < 4 ∧
    hashtable_get_index (hashtable_init 1 (some hash_none) 4 0 0)
        ((hashtable_init 1 (some hash_none) 4 0 0).hashfunction 77) + 3
      < (hashtable_init 1 (some hash_none) 4 0 0).table.length :=
  ⟨by decide, C8_probe_indices_in_bounds 1 4 0 0 77 3 (some hash_none) (by decide)⟩

/-- Claim C9: after a successful construction with exponent `bits` the
backing array has exactly `(1 << bits) + MAX_PROBES` slots (the count
`hashtable_memory_size` is computed from), and every slot holds
`KEY_EMPTY` / `VALUE_EMPTY`. -/
theorem C9_init_all_slots_free (bits mt ik idata : Nat)
    (hf : Option (Nat → Nat)) :
    (hashtable_init bits hf mt ik idata).table.length
      = hashtable_memory_size mt bits ∧
    (hashtable_init bits hf mt ik idata).table.length = 2 ^ bits + mt ∧
    ∀ s ∈ (hashtable_init bits hf mt ik idata).table,
      s.key = ik ∧ s.data = idata := by
  refine ⟨by simp [hashtable_init, hashtable_memory_size],
    by simp [hashtable_init], fun s hs => ?_⟩
  have h : s = hashtable_init_slot ik idata := by
    simpa [hashtable_init] using hs
  rw [h]
  exact ⟨rfl, rfl⟩

/-! ### Round-trip laws -/

theorem find_after_insert_success (ht : Hashtable) (k v : Nat)
    (hlen : hashtable_get_index ht (ht.hashfunction k) + ht.max_tries
      ≤ ht.table.length)
    (hsucc : (hashtable_insert ht k v).2 = true) :
    (hashtable_find (hashtable_insert ht k v).1 k).2 = some v := by
  have hout := (hashtable_insert_true_iff ht k v).mp hsucc
  obtain ⟨j, hj, htab, hhit, hpre⟩ := insertProbe_success ht.illegal_key k v
    ht.table ht.max_tries (hashtable_get_index ht (ht.hashfunction k)) hout
  have hfields := hashtable_insert_fields ht k v
  have hidx : hashtable_get_index (hashtable_insert ht k v).1
      ((hashtable_insert ht k v).1.hashfunction k)
      = hashtable_get_index ht (ht.hashfunction k) := by
    rw [hashtable_get_index, hashtable_get_index, hfields.2.1, hfields.2.2.1]
  have hbound : hashtable_get_index ht (ht.hashfunction k) + j
      < ht.table.length := by omega
  have hread : slotRead (hashtable_insert ht k v).1.table
      (hashtable_get_index ht (ht.hashfunction k) + j) = ⟨k, v⟩ := by
    rw [hashtable_insert_table, htab]
    exact slotRead_set_self _ _ _ hbound
  rw [hashtable_find_snd, hidx, hfields.2.2.2.1]
  have hfp := findProbe_hit k (hashtable_insert ht k v).1.table ht.max_tries
    (hashtable_get_index ht (ht.hashfunction k)) j hj
    (fun j' hj' => by
      rw [hashtable_insert_table, htab, slotRead_set_ne _ _ (by omega)]
      exact (hpre j' hj').2)
    (by rw [hread])
  rw [hfp, hread]

/-- Claim C5, counterexample.  In the reachable state `htC2` (single primary
slot, `MAX_PROBES = 1`, slot 0 occupied by key 5) the sequential pair
`insert(7, 7); lookup(7)` does not return 7: the insert fails on the
saturated probe chain and the lookup fails too, refuting the unconditional
round-trip law. -/
theorem C5_insert_find_counterexample :
    (7 : Nat) ≠ htC2.illegal_key ∧
    (hashtable_insert htC2 7 7).2 = false ∧
    (hashtable_find (hashtable_insert htC2 7 7).1 7).2 = none := by
  decide

/-- Claim C5 (amended): for every key `k != KEY_EMPTY` and value `v`,
`insert(k, v)` followed by `lookup(k)` in the same thread returns `v`,
**provided the insert returned success** (it fails when the probe chain is
saturated, as the counterexample shows); the probe window must lie inside
the allocated array, as construction guarantees. -/
theorem C5_insert_find_amended (ht : Hashtable) (k v : Nat)
    (hk : k ≠ ht.illegal_key)
    (hlen : hashtable_get_index ht (ht.hashfunction k) + ht.max_tries
      ≤ ht.table.length)
    (hsucc : (hashtable_insert ht k v).2 = true) :
    (hashtable_find (hashtable_insert ht k v).1 k).2 = some v :=
  find_after_insert_success ht k v hlen hsucc

/-- Claim C5 (amended), witness at a concrete instance. -/
theorem C5_insert_find_witness :
    (5 : Nat) ≠ (hashtable_init 0 (some hash_none) 1 0 0).illegal_key ∧
    hashtable_get_index (hashtable_init 0 (some hash_none) 1 0 0)
        ((hashtable_init 0 (some hash_none) 1 0 0).hashfunction 5)
        + (hashtable_init 0 (some hash_none) 1 0 0).max_tries
      ≤ (hashtable_init 0 (some hash_none) 1 0 0).table.length ∧
    (hashtable_insert (hashtable_init 0 (some hash_none) 1 0 0) 5 9).2 = true ∧
    (hashtable_find
      (hashtable_insert (hashtable_init 0 (some hash_none) 1 0 0) 5 9).1 5).2
      = some 9 :=
  ⟨by decide, by decide, by decide,
    C5_insert_find_amended (hashtable_init 0 (some hash_none) 1 0 0) 5 9
      (by decide) (by decide) (by decide)⟩

/-- Claim C4, counterexample.  In the reachable state `htC1` key 4 occupies
two slots of its probe window.  The sequence `insert(4, 99); remove(4)`
does return 99, but the **subsequent `lookup(4)` succeeds** (it finds the
stale duplicate, value 20) instead of failing, refuting the unconditional
law. -/
theorem C4_insert_remove_find_counterexample :
    (4 : Nat) ≠ htC1.illegal_key ∧
    (hashtable_insert htC1 4 99).2 = true ∧
    (hashtable_remove (hashtable_insert htC1 4 99).1 4).2 = some 99 ∧
    (hashtable_find (hashtable_remove (hashtable_insert htC1 4 99).1 4).1 4).2
      = some 20 := by
  decide

/-- Claim C4 (amended): `insert(k, v); remove(k)` returns `v` and a
subsequent `lookup(k)` fails, **provided no slot holds `k` beforehand**
(otherwise a stale duplicate can survive, as the counterexample shows) and
**the insert returned success** (on a saturated chain insert and remove
both fail); the probe window must lie inside the allocated array, as
construction guarantees. -/
theorem C4_insert_remove_find_amended (ht : Hashtable) (k v : Nat)
    (hk : k ≠ ht.illegal_key)
    (hlen : hashtable_get_index ht (ht.hashfunction k) + ht.max_tries
      ≤ ht.table.length)
    (hcnt : countKey ht.table k = 0)
    (hsucc : (hashtable_insert ht k v).2 = true) :
    (hashtable_remove (hashtable_insert ht k v).1 k).2 = some v ∧
    (hashtable_find (hashtable_remove (hashtable_insert ht k v).1 k).1 k).2
      = none := by
  have hout := (hashtable_insert_true_iff ht k v).mp hsucc
  obtain ⟨j, hj, htab, hhit, hpre⟩ := insertProbe_success ht.illegal_key k v
    ht.table ht.max_tries (hashtable_get_index ht (ht.hashfunction k)) hout
  have hfields := hashtable_insert_fields ht k v
  have hidx : hashtable_get_index (hashtable_insert ht k v).1
      ((hashtable_insert ht k v).1.hashfunction k)
      = hashtable_get_index ht (ht.hashfunction k) := by
    rw [hashtable_get_index, hashtable_get_index, hfields.2.1, hfields.2.2.1]
  have hbound : hashtable_get_index ht (ht.hashfunction k) + j
      < ht.table.length := by omega
  have hread : slotRead (hashtable_insert ht k v).1.table
      (hashtable_get_index ht (ht.hashfunction k) + j) = ⟨k, v⟩ := by
    rw [hashtable_insert_table, htab]
    exact slotRead_set_self _ _ _ hbound
  have hrp : removeProbe (hashtable_insert ht k v).1.illegal_key
      (hashtable_insert ht k v).1.illegal_data k
      (hashtable_insert ht k v).1.table
      (hashtable_get_index (hashtable_insert ht k v).1
        ((hashtable_insert ht k v).1.hashfunction k))
      (hashtable_insert ht k v).1.max_tries
      = some ((hashtable_insert ht k v).1.table.set
          (hashtable_get_index ht (ht.hashfunction k) + j)
          ⟨ht.illegal_key, ht.illegal_data⟩, v) := by
    rw [hidx, hfields.2.2.2.1, hfields.2.2.2.2.1, hfields.2.2.2.2.2]
    have := removeProbe_hit ht.illegal_key ht.illegal_data k
      (hashtable_insert ht k v).1.table ht.max_tries
      (hashtable_get_index ht (ht.hashfunction k)) j hj
      (fun j' hj' => by
        rw [hashtable_insert_table, htab, slotRead_set_ne _ _ (by omega)]
        exact (hpre j' hj').2)
      (by rw [hread])
    rw [this, hread]
  have hrem := hashtable_remove_of_probe_some (hashtable_insert ht k v).1 k
    _ _ hrp
  refine ⟨hrem.2.1, ?_⟩
  have htab2 : (hashtable_remove (hashtable_insert ht k v).1 k).1.table
      = ht.table.set (hashtable_get_index ht (ht.hashfunction k) + j)
          ⟨ht.illegal_key, ht.illegal_data⟩ := by
    rw [hrem.1, hashtable_insert_table, htab, List.set_set]
  have hidx2 : hashtable_get_index
      (hashtable_remove (hashtable_insert ht k v).1 k).1
      ((hashtable_remove (hashtable_insert ht k v).1 k).1.hashfunction k)
      = hashtable_get_index ht (ht.hashfunction k) := by
    rw [hashtable_get_index, hashtable_get_index, hrem.2.2.1, hrem.2.2.2.1,
      hfields.2.1, hfields.2.2.1]
  rw [hashtable_find_snd, hidx2, hrem.2.2.2.2.1, hfields.2.2.2.1]
  apply findProbe_none
  intro j' hj'
  rw [htab2]
  by_cases hjj : j' = j
  · subst hjj
    rw [slotRead_set_self _ _ _ hbound]
    exact fun he => hk he.symm
  · rw [slotRead_set_ne _ _ (by omega)]
    exact countKey_zero_slotRead hcnt (by omega)

/-- Claim C4 (amended), witness at a concrete instance. -/
theorem C4_insert_remove_find_witness :
    (5 : Nat) ≠ (hashtable_init 0 (some hash_none) 1 0 0).illegal_key ∧
    hashtable_get_index (hashtable_init 0 (some hash_none) 1 0 0)
        ((hashtable_init 0 (some hash_none) 1 0 0).hashfunction 5)
        + (hashtable_init 0 (some hash_none) 1 0 0).max_tries
      ≤ (hashtable_init 0 (some hash_none) 1 0 0).table.length ∧
    countKey (hashtable_init 0 (some hash_none) 1 0 0).table 5 = 0 ∧
    (hashtable_insert (hashtable_init 0 (some hash_none) 1 0 0) 5 9).2 = true ∧
    (hashtable_remove
      (hashtable_insert (hashtable_init 0 (some hash_none) 1 0 0) 5 9).1 5).2
      = some 9 ∧
    (hashtable_find
      (hashtable_remove
        (hashtable_insert (hashtable_init 0 (some hash_none) 1 0 0) 5 9).1
        5).1 5).2 = none := by
  have h := C4_insert_remove_find_amended
    (hashtable_init 0 (some hash_none) 1 0 0) 5 9
    (by decide) (by decide) (by decide) (by decide)
  exact ⟨by decide, by decide, by decide, by decide, h.1, h.2⟩

/-- Claim C10: inserting `KEY_EMPTY` itself into a table whose probe window
still has a FREE slot "succeeds": the CAS of `KEY_EMPTY` over `KEY_EMPTY`
trivially succeeds on the first FREE slot, the value is written there while
every slot key (that slot's included) stays exactly as it was, and a
subsequent `lookup(KEY_EMPTY)` returns that value. -/
theorem C10_insert_empty_key (ht : Hashtable) (v : Nat)
    (hlen : hashtable_get_index ht (ht.hashfunction ht.illegal_key)
        + ht.max_tries ≤ ht.table.length)
    (hfree : ∃ j, j < ht.max_tries ∧
      (slotRead ht.table
        (hashtable_get_index ht (ht.hashfunction ht.illegal_key) + j)).key
        = ht.illegal_key) :
    (hashtable_insert ht ht.illegal_key v).2 = true ∧
    (∀ i', (slotRead (hashtable_insert ht ht.illegal_key v).1.table i').key
      = (slotRead ht.table i').key) ∧
    (hashtable_find (hashtable_insert ht ht.illegal_key v).1
      ht.illegal_key).2 = some v := by
  have hsucc : (hashtable_insert ht ht.illegal_key v).2 = true := by
    rw [hashtable_insert_true_iff]
    intro hfail
    obtain ⟨j, hj, hkey⟩ := hfree
    exact (insertProbe_failed ht.illegal_key ht.illegal_key v ht.table
      ht.max_tries (hashtable_get_index ht (ht.hashfunction ht.illegal_key))
      hfail).2 j hj |>.1 hkey
  have hout := (hashtable_insert_true_iff ht ht.illegal_key v).mp hsucc
  obtain ⟨j, hj, htab, hhit, hpre⟩ := insertProbe_success ht.illegal_key
    ht.illegal_key v ht.table ht.max_tries
    (hashtable_get_index ht (ht.hashfunction ht.illegal_key)) hout
  have hbound : hashtable_get_index ht (ht.hashfunction ht.illegal_key) + j
      < ht.table.length := by omega
  have hkeyj : (slotRead ht.table
      (hashtable_get_index ht (ht.hashfunction ht.illegal_key) + j)).key
      = ht.illegal_key := by
    rcases hhit with h | h <;> exact h
  refine ⟨hsucc, fun i' => ?_, find_after_insert_success ht ht.illegal_key v
    hlen hsucc⟩
  rw [hashtable_insert_table, htab]
  by_cases hi' : i' = hashtable_get_index ht (ht.hashfunction ht.illegal_key) + j
  · subst hi'
    rw [slotRead_set_self _ _ _ hbound, hkeyj]
  · rw [slotRead_set_ne _ _ (fun he => hi' he.symm)]

/-- Claim C10, witness at a concrete instance (`VALUE_EMPTY = 7` to show
the stored value, 3, is really the supplied one). -/
theorem C10_insert_empty_key_witness :
    hashtable_get_index (hashtable_init 0 (some hash_none) 1 0 7)
        ((hashtable_init 0 (some hash_none) 1 0 7).hashfunction
          (hashtable_init 0 (some hash_none) 1 0 7).illegal_key)
        + (hashtable_init 0 (some hash_none) 1 0 7).max_tries
      ≤ (hashtable_init 0 (some hash_none) 1 0 7).table.length ∧
    (hashtable_insert (hashtable_init 0 (some hash_none) 1 0 7)
      (hashtable_init 0 (some hash_none) 1 0 7).illegal_key 3).2 = true ∧
    (slotRead (hashtable_insert (hashtable_init 0 (some hash_none) 1 0 7)
        (hashtable_init 0 (some hash_none) 1 0 7).illegal_key 3).1.table
        0).key
      = (slotRead (hashtable_init 0 (some hash_none) 1 0 7).table 0).key ∧
    (hashtable_find
      (hashtable_insert (hashtable_init 0 (some hash_none) 1 0 7)
        (hashtable_init 0 (some hash_none) 1 0 7).illegal_key 3).1
      (hashtable_init 0 (some hash_none) 1 0 7).illegal_key).2 = some 3 := by
  have h := C10_insert_empty_key (hashtable_init 0 (some hash_none) 1 0 7) 3
    (by decide) ⟨0, by decide, by decide⟩
  exact ⟨by decide, h.1, h.2.1 0, h.2.2⟩

/-! ### The default hash function -/

/-- Transcription of the spec's §4.2 pseudo-code for the default hash, read
over arbitrary naturals: every line is computed on 32-bit unsigned integers
with wrap-around semantics (reduction modulo `2^32` after each line),
`~key` is the 32-bit bitwise complement (XOR with the all-ones mask), and
the shifts are multiplication/division by the corresponding power of
two. -/
def hash32shift_spec (key : Nat) : Nat :=
  let s1 := ((key ^^^ (2 ^ 32 - 1)) + key * 2 ^ 10) % 2 ^ 32
  let s2 := (s1 ^^^ s1 / 2 ^ 7) % 2 ^ 32
  let s3 := (s2 + s2 * 2 ^ 1) % 2 ^ 32
  let s4 := (s3 ^^^ s3 / 2 ^ 2) % 2 ^ 32
  let s5 := s4 * 187 % 2 ^ 32
  let s6 := (s5 ^^^ s5 / 2 ^ 11) % 2 ^ 32
  s6

theorem mod32_lt (a : Nat) : a % 2 ^ 32 < 2 ^ 32 :=
  Nat.mod_lt _ (by norm_num)

theorem xor_div_mod32 (a b : Nat) (h : a < 2 ^ 32) :
    (a ^^^ a / b) % 2 ^ 32 = a ^^^ a / b :=
  Nat.mod_eq_of_lt
    (Nat.xor_lt_two_pow h (lt_of_le_of_lt (Nat.div_le_self a b) h))

/-- Claim C6: on every 32-bit input the code's default hash `hash32shift`
computes exactly the spec's six-line sequence with all operations wrapping
modulo `2^32`, and its output is again a 32-bit value. -/
theorem C6_hash32shift_matches_spec (key : Nat) (hkey : key < 2 ^ 32) :
    hash32shift key = hash32shift_spec key ∧ hash32shift key < 2 ^ 32 := by
  constructor
  · simp only [hash32shift, hash32shift_spec, u32, Nat.shiftLeft_eq,
      Nat.shiftRight_eq_div_pow, Nat.mod_eq_of_lt hkey, Nat.add_mod_mod]
    rw [xor_div_mod32 _ _ (mod32_lt _), xor_div_mod32 _ _ (mod32_lt _),
      xor_div_mod32 _ _ (mod32_lt _)]
  · simp only [hash32shift, u32, Nat.shiftRight_eq_div_pow]
    exact Nat.xor_lt_two_pow (mod32_lt _)
      (lt_of_le_of_lt (Nat.div_le_self _ _) (mod32_lt _))

/-- Claim C6, witness at a concrete 32-bit input. -/
theorem C6_hash32shift_matches_spec_witness :
    (12345 : Nat) < 2 ^ 32 ∧
    (hash32shift 12345 = hash32shift_spec 12345 ∧ hash32shift 12345 < 2 ^ 32) :=
  ⟨by decide, C6_hash32shift_matches_spec 12345 (by decide)⟩

end Lockfree
